import Mathlib

/-
Verification of the tgz package (zxdev/tgz): a shallow embedding of
`Bytes`, `Tar` and `Untar` from tgz.go, together with proofs about the
claims of the specification.

Modelling conventions:
* The Go standard library's gzip/tar codecs are external collaborators of
  the package.  They are modelled at the item level: the serialized tar
  stream is a list of `TarItem`s (a 512-byte header block, one data byte,
  or the terminating zero blocks), and the compressed stream is a list of
  `GzByte`s (the gzip header, a compressed payload item, the gzip
  trailer).  The gzip writer buffers its payload and flushes it when
  closed, writing its fixed header on the first write — exactly the
  behaviour the package's `defer gzw.Close()` relies on.  "Byte-identical
  archive streams" is read as equality of these item streams.
* Machine integers (sizes, counts) are `Nat`; permission modes are `Int`
  (Go `int64`).  Timestamps are `Nat` seconds; `0` is Go's zero
  `time.Time` (`IsZero`).
* The filesystem is explicit: `os.Stat`/`filepath.Walk` results are
  inputs, and `Untar`'s effects are a pure transformation of an `FS`
  value.  The unbounded `for` loop of `Untar` is modelled with explicit
  fuel; returning `none` for every fuel value means the loop never
  returns.
-/

namespace Tgz

/-- Errors surfaced by the pipeline and by the modelled collaborators. -/
inductive Err
  | eof
  | sink
  | badGzip
  | tarHeader
  | unexpectedEOF
  | writeTooLong
  | missedWrite
  | statErr (s : String)
  | walkAbort (s : String)
  deriving DecidableEq

/-- Entry kinds used by the package: tar.TypeReg, tar.TypeDir, and the
unsupported kinds it silently ignores. -/
inductive TypeFlag
  | reg
  | dir
  | other
  deriving DecidableEq

/-- tar.Header restricted to the fields the package reads or writes. -/
structure Header where
  name : String
  size : Nat
  uname : String
  gname : String
  mode : Int
  modTime : Nat
  accessTime : Nat
  changeTime : Nat
  typeflag : TypeFlag
  deriving DecidableEq

/-- One item of the serialized (uncompressed) tar stream. -/
inductive TarItem
  | headerBlock (h : Header)
  | dataByte (b : Nat)
  | endMarker
  deriving DecidableEq

/-- One item of the compressed stream written to the sinks. -/
inductive GzByte
  | gzHeader
  | payload (t : TarItem)
  | gzTrailer
  deriving DecidableEq

/-- A physical write destination of the fan-out (io.MultiWriter) set.
`failAfter = some k` makes any write that would push the total past `k`
items fail (a disk-full style sink); `failed` records that a write to
this sink returned an error. -/
structure SinkState where
  failAfter : Option Nat
  written : List GzByte
  failed : Bool
  deriving DecidableEq

/-- A sink that accepts every write. -/
def idealSink : SinkState := ⟨none, [], false⟩

/-- One write call on a single sink. -/
def sinkWrite (s : SinkState) (chunk : List GzByte) : SinkState × Option Err :=
  match s.failAfter with
  | none => (⟨none, s.written ++ chunk, s.failed⟩, none)
  | some k =>
      if s.written.length + chunk.length ≤ k then
        (⟨some k, s.written ++ chunk, s.failed⟩, none)
      else
        (⟨some k, s.written, true⟩, some Err.sink)

/-- io.MultiWriter: write the chunk to every sink in order, stopping at
the first failing destination (later sinks are not written). -/
def mwWrite : List SinkState → List GzByte → List SinkState × Option Err
  | [], _ => ([], none)
  | s :: rest, chunk =>
      let r := sinkWrite s chunk
      match r.2 with
      | some e => (r.1 :: rest, some e)
      | none =>
          let rr := mwWrite rest chunk
          (r.1 :: rr.1, rr.2)

/-- gzip.Writer over the fan-out sink: writes its fixed header on the
first write, buffers the compressed payload, and flushes payload and
trailer at Close.  Errors latch (Go z.err). -/
structure GzipWriter where
  sinks : List SinkState
  wroteHeader : Bool
  buf : List TarItem
  err : Option Err
  deriving DecidableEq

def gzWrite (z : GzipWriter) (p : List TarItem) : GzipWriter × Option Err :=
  match z.err with
  | some e => (z, some e)
  | none =>
      if z.wroteHeader then
        (⟨z.sinks, true, z.buf ++ p, none⟩, none)
      else
        let r := mwWrite z.sinks [GzByte.gzHeader]
        match r.2 with
        | some e => (⟨r.1, false, z.buf, some e⟩, some e)
        | none => (⟨r.1, true, z.buf ++ p, none⟩, none)

def gzClose (z : GzipWriter) : GzipWriter × Option Err :=
  match z.err with
  | some e => (z, some e)
  | none =>
      let r0 := if z.wroteHeader then (z.sinks, none) else mwWrite z.sinks [GzByte.gzHeader]
      match r0.2 with
      | some e => (⟨r0.1, true, z.buf, some e⟩, some e)
      | none =>
          let r1 := mwWrite r0.1 (z.buf.map GzByte.payload)
          match r1.2 with
          | some e => (⟨r1.1, true, [], some e⟩, some e)
          | none =>
              let r2 := mwWrite r1.1 [GzByte.gzTrailer]
              (⟨r2.1, true, [], r2.2⟩, r2.2)

/-- tar.Writer over the gzip writer.  `remaining` is the number of body
bytes still owed for the current entry (Go tw.nb); errors latch. -/
structure TarWriter where
  gz : GzipWriter
  err : Option Err
  remaining : Nat
  deriving DecidableEq

def twWriteHeader (t : TarWriter) (h : Header) : TarWriter × Option Err :=
  match t.err with
  | some e => (t, some e)
  | none =>
      if t.remaining ≠ 0 then
        (⟨t.gz, some Err.missedWrite, t.remaining⟩, some Err.missedWrite)
      else
        let r := gzWrite t.gz [TarItem.headerBlock h]
        match r.2 with
        | some e => (⟨r.1, some e, 0⟩, some e)
        | none => (⟨r.1, none, if h.typeflag = TypeFlag.reg then h.size else 0⟩, none)

/-- io.Copy of a whole buffer into the tar writer: returns the byte
count copied and the first error. -/
def copyToTar (t : TarWriter) (p : List Nat) : TarWriter × Nat × Option Err :=
  match t.err with
  | some e => (t, 0, some e)
  | none =>
      if p.length > t.remaining then
        (⟨t.gz, some Err.writeTooLong, t.remaining⟩, 0, some Err.writeTooLong)
      else
        let r := gzWrite t.gz (p.map TarItem.dataByte)
        match r.2 with
        | some e => (⟨r.1, some e, t.remaining⟩, 0, some e)
        | none => (⟨r.1, none, t.remaining - p.length⟩, p.length, none)

/-- tar.Writer Close: flush the current entry (error if its body was
under-written) and emit the terminating zero blocks. -/
def twClose (t : TarWriter) : TarWriter × Option Err :=
  match t.err with
  | some e => (t, some e)
  | none =>
      if t.remaining ≠ 0 then
        (⟨t.gz, some Err.missedWrite, t.remaining⟩, some Err.missedWrite)
      else
        let r := gzWrite t.gz [TarItem.endMarker]
        (⟨r.1, r.2, 0⟩, r.2)

/-- The compact sortable timestamp name Bytes generates with
time.Now().UTC().Format("20060102T150405"); modelled as an injective
rendering of the current second. -/
def timestampName (now : Nat) : String := toString now

/-- The default header Bytes builds when opt is nil. -/
def defaultBytesHeader (now : Nat) : Header :=
  ⟨timestampName now, 0, "user", "user", 0o644, now, 0, 0, TypeFlag.reg⟩

/-- Result of Bytes: the int64 count from io.Copy, the returned error,
and the final state of the destination sinks. -/
structure BytesOut where
  n : Nat
  err : Option Err
  sinks : List SinkState
  deriving DecidableEq

/-- tgz.Bytes(b, opt, w...): build the pipeline over the fan-out sink,
write one header (its error is discarded by the source), copy the buffer
and return io.Copy's result; the deferred tw.Close / gzw.Close run next
with their errors discarded. -/
def BytesM (b : List Nat) (opt0 : Option Header) (now : Nat)
    (sinks : List SinkState) : BytesOut :=
  let opt := opt0.getD (defaultBytesHeader now)
  let gz : GzipWriter := ⟨sinks, false, [], none⟩
  let tw0 : TarWriter := ⟨gz, none, 0⟩
  let tw1 := (twWriteHeader tw0
    ⟨opt.name, b.length, opt.uname, opt.gname, opt.mode, opt.modTime, 0, 0,
      TypeFlag.reg⟩).1
  let c := copyToTar tw1 b
  let tw2 := (twClose c.1).1
  let gzf := (gzClose tw2.gz).1
  ⟨c.2.1, c.2.2, gzf.sinks⟩

/-- Go os.FileMode: the file-type bits plus the setuid/setgid/sticky
bits and the permission bits. -/
structure FileMode where
  isDir : Bool
  isSymlink : Bool
  isDevice : Bool
  isCharDevice : Bool
  isNamedPipe : Bool
  isSocket : Bool
  isIrregular : Bool
  setuid : Bool
  setgid : Bool
  sticky : Bool
  perm : Int
  deriving DecidableEq

/-- Go os.FileMode.IsRegular: `m & ModeType == 0`.  ModeType contains
only the file-type bits (dir, symlink, named pipe, socket, device, char
device, irregular); setuid/setgid/sticky and the permission bits are not
part of ModeType, so they do not make a file non-regular. -/
def FileMode.IsRegular (m : FileMode) : Bool :=
  !(m.isDir || m.isSymlink || m.isDevice || m.isCharDevice || m.isNamedPipe ||
    m.isSocket || m.isIrregular)

/-- A FileMode for a plain regular file with the given permission bits. -/
def regularMode (perm : Int) : FileMode :=
  ⟨false, false, false, false, false, false, false, false, false, false, perm⟩

/-- A FileMode for a directory with the given permission bits. -/
def dirMode (perm : Int) : FileMode :=
  ⟨true, false, false, false, false, false, false, false, false, false, perm⟩

/-- A regular file carrying the setuid bit (an executable, mode u+s). -/
def setuidMode : FileMode :=
  ⟨false, false, false, false, false, false, false, true, false, false, 0o755⟩

/-- A symbolic link. -/
def symlinkMode : FileMode :=
  ⟨false, true, false, false, false, false, false, false, false, false, 0o777⟩

/-- Go os.FileInfo restricted to what the package reads. -/
structure FInfo where
  name : String
  size : Nat
  mode : FileMode
  modTime : Nat
  deriving DecidableEq

/-- tar.FileInfoHeader for the regular files and directories the walk
passes it: name, size, permission bits and modification time come from
the stat data; the ownership strings are left empty. -/
def FileInfoHeader (fi : FInfo) : Header :=
  ⟨fi.name, fi.size, "", "", fi.mode.perm, fi.modTime, 0, 0,
    if fi.mode.isDir then TypeFlag.dir else TypeFlag.reg⟩

/-- Split a slash-separated path into its components. -/
def splitComps : List Char → List (List Char)
  | [] => [[]]
  | c :: rest =>
      if c = '/' then [] :: splitComps rest
      else
        match splitComps rest with
        | [] => [[c]]
        | g :: gs => (c :: g) :: gs

/-- One step of path cleaning (Go filepath.Clean on relative
slash-separated paths): drop empty and "." components, let ".." pop the
previous component; the accumulator is kept reversed. -/
def cleanStep (acc : List (List Char)) (c : List Char) : List (List Char) :=
  if c = [] ∨ c = ['.'] then acc
  else if c = ['.', '.'] then
    match acc with
    | [] => [c]
    | a :: rest => if a = ['.', '.'] then c :: a :: rest else rest
  else c :: acc

def intercalateSlash : List (List Char) → List Char
  | [] => []
  | [c] => c
  | c :: rest => c ++ '/' :: intercalateSlash rest

/-- filepath.Join of the destination root and an entry name: concatenate
and Clean (which resolves "." and ".." components without any
containment check). -/
def joinPath (dst name : String) : String :=
  let comps := ((splitComps dst.data ++ splitComps name.data).foldl cleanStep []).reverse
  match comps with
  | [] => "."
  | _ => ⟨intercalateSlash comps⟩

/-- filepath.Base: the last slash-separated component of the path. -/
def baseName (s : String) : String :=
  match ((splitComps s.data).filter (· ≠ [])).getLast? with
  | some c => ⟨c⟩
  | none => s

/-- Worker for `replaceAll`; every step consumes at least one character
of `s`, so `s.length` fuel always suffices. -/
def replaceAllAux : Nat → List Char → List Char → List Char
  | 0, s, _ => s
  | _ + 1, [], _ => []
  | fuel + 1, c :: rest, old =>
      if old ≠ [] ∧ old.isPrefixOf (c :: rest) then
        replaceAllAux fuel ((c :: rest).drop old.length) old
      else
        c :: replaceAllAux fuel rest old

/-- strings.Replace(s, old, "", -1): remove every non-overlapping
occurrence of `old` from `s`, scanning left to right. -/
def replaceAll (s old : List Char) : List Char :=
  replaceAllAux s.length s old

/-- strings.TrimPrefix(s, string(filepath.Separator)): remove one
leading separator when present. -/
def trimLeadSep : List Char → List Char
  | '/' :: rest => rest
  | s => s

/-- The entry name Tar computes for a walked file:
strings.TrimPrefix(strings.Replace(file, src, "", -1), separator). -/
def goEntryName (file src : String) : String :=
  ⟨trimLeadSep (replaceAll file.data src.data)⟩

/-- One (path, info, err) triple handed to the filepath.Walk callback,
together with the content that os.Open/io.Copy would read at that
path. -/
structure WalkEntry where
  path : String
  info : FInfo
  err : Option Err
  content : List Nat
  deriving DecidableEq

/-- The walk callback of Tar: propagate walk errors, skip non-regular
files, build the header from the stat data, overwrite ownership, mode
and (when the override's modification time is non-zero) the three
timestamps, rewrite the name, then write header and content. -/
def tarWalkFn (opt : Header) (src : String) (tw : TarWriter) (e : WalkEntry) :
    TarWriter × Option Err :=
  match e.err with
  | some er => (tw, some er)
  | none =>
      if !e.info.mode.IsRegular then (tw, none)
      else
        let h0 := FileInfoHeader e.info
        let h1 : Header :=
          ⟨h0.name, h0.size, opt.uname, opt.gname, opt.mode, h0.modTime,
            h0.accessTime, h0.changeTime, h0.typeflag⟩
        let h2 : Header :=
          if opt.modTime ≠ 0 then
            ⟨h1.name, h1.size, h1.uname, h1.gname, h1.mode, opt.modTime,
              opt.modTime, opt.modTime, h1.typeflag⟩
          else h1
        let h3 : Header :=
          ⟨goEntryName e.path src, h2.size, h2.uname, h2.gname, h2.mode,
            h2.modTime, h2.accessTime, h2.changeTime, h2.typeflag⟩
        let r := twWriteHeader tw h3
        match r.2 with
        | some er => (r.1, some er)
        | none =>
            let cr := copyToTar r.1 e.content
            (cr.1, cr.2.2)

/-- filepath.Walk: feed the entries to the callback in order; a callback
error aborts the remaining walk and is returned. -/
def runWalk (opt : Header) (src : String) : TarWriter → List WalkEntry →
    TarWriter × Option Err
  | tw, [] => (tw, none)
  | tw, e :: rest =>
      let r := tarWalkFn opt src tw e
      match r.2 with
      | some x => (r.1, some x)
      | none => runWalk opt src r.1 rest

/-- The default override Tar builds when opt is nil. -/
def defaultTarHeader : Header :=
  ⟨"", 0, "user", "user", 0o644, 0, 0, 0, TypeFlag.reg⟩

/-- tgz.Tar(src, opt, writers...): stat the source; in single-file mode
skip non-regular files, otherwise write one header (its error is
discarded by the source, and the override's modification time is not
used) and copy the file; in directory mode walk the tree.  The deferred
tw.Close / gzw.Close always run, their errors discarded. -/
def TarM (src : String) (opt0 : Option Header) (stat : Except Err FInfo)
    (walk : List WalkEntry) (srcContent : List Nat) (sinks : List SinkState) :
    Option Err × List SinkState :=
  let opt := opt0.getD defaultTarHeader
  match stat with
  | Except.error e => (some e, sinks)
  | Except.ok info =>
      let gz : GzipWriter := ⟨sinks, false, [], none⟩
      let tw0 : TarWriter := ⟨gz, none, 0⟩
      if !info.mode.isDir then
        if !info.mode.IsRegular then
          let tw1 := (twClose tw0).1
          let gzf := (gzClose tw1.gz).1
          (none, gzf.sinks)
        else
          let tw1 := (twWriteHeader tw0
            ⟨baseName src, info.size, opt.uname, opt.gname, opt.mode, 0, 0, 0,
              TypeFlag.reg⟩).1
          let c := copyToTar tw1 srcContent
          let tw2 := (twClose c.1).1
          let gzf := (gzClose tw2.gz).1
          (c.2.2, gzf.sinks)
      else
        let w := runWalk opt src tw0 walk
        let tw1 := (twClose w.1).1
        let gzf := (gzClose tw1.gz).1
        (w.2, gzf.sinks)

/-- Wrap a tar item stream in the gzip framing: the fixed header, the
compressed payload, the trailer. -/
def gzEncode (items : List TarItem) : List GzByte :=
  GzByte.gzHeader :: items.map GzByte.payload ++ [GzByte.gzTrailer]

/-- Decompress the part of a gzip stream after its header: the decoded
items plus the terminal condition (`none` = clean end at the trailer,
`some e` = a decode error surfaced once the reader gets there). -/
def gzDecodeItems : List GzByte → List TarItem × Option Err
  | [] => ([], some Err.unexpectedEOF)
  | GzByte.gzTrailer :: _ => ([], none)
  | GzByte.gzHeader :: _ => ([], some Err.badGzip)
  | GzByte.payload t :: rest =>
      let r := gzDecodeItems rest
      (t :: r.1, r.2)

/-- gzip.NewReader: fails immediately unless the stream starts with a
gzip header; afterwards decompression is read lazily. -/
def gzNewReader (r : List GzByte) : Except Err (List TarItem × Option Err) :=
  match r with
  | GzByte.gzHeader :: rest => Except.ok (gzDecodeItems rest)
  | _ => Except.error Err.badGzip

/-- State of tar.NewReader over the decompressed stream: the items not
yet consumed, the terminal condition of the decompressor, and the
number of body bytes of the current entry not yet read (Go tr.curr). -/
structure TRState where
  items : List TarItem
  terminal : Option Err
  pending : Nat
  deriving DecidableEq

/-- tar.Reader.Next: skip the unread body of the previous entry, then
return the next header.  At the end-of-archive marker or at the end of
the stream it returns a nil header together with io.EOF (or the decode
error); it never pairs a non-nil header with an error. -/
def trNext (st : TRState) : Option Header × Option Err × TRState :=
  let rest := st.items.drop st.pending
  match rest with
  | [] => (none, some (st.terminal.getD Err.eof), ⟨[], st.terminal, 0⟩)
  | TarItem.endMarker :: r =>
      (none, some Err.eof, ⟨TarItem.endMarker :: r, st.terminal, 0⟩)
  | TarItem.headerBlock h :: r =>
      (some h, none,
        ⟨r, st.terminal, if h.typeflag = TypeFlag.reg then h.size else 0⟩)
  | TarItem.dataByte b :: r =>
      (none, some Err.tarHeader, ⟨TarItem.dataByte b :: r, st.terminal, 0⟩)

/-- The body byte carried by a tar stream item, if any. -/
def dataOf : TarItem → Option Nat
  | TarItem.dataByte b => some b
  | _ => none

/-- io.Copy(f, tr) for the current entry: read the entry's declared byte
range; a stream that ends before the range is filled yields the bytes
that were available together with an unexpected-EOF error. -/
def trCopy (st : TRState) : List Nat × Option Err × TRState :=
  let chunk := st.items.take st.pending
  let data := chunk.filterMap dataOf
  if chunk.length < st.pending ∨ data.length < chunk.length then
    (data, some Err.unexpectedEOF, ⟨st.items.drop st.pending, st.terminal, 0⟩)
  else
    (data, none, ⟨st.items.drop st.pending, st.terminal, 0⟩)

/-- The directories and regular files materialized under the extraction
destination. -/
structure FS where
  dirs : List String
  files : List (String × List Nat)
  deriving DecidableEq

def emptyFS : FS := ⟨[], []⟩

/-- os.Stat(target) succeeds iff a directory or file exists there. -/
def FS.statExists (fs : FS) (p : String) : Bool :=
  fs.dirs.contains p || (fs.files.lookup p).isSome

/-- os.MkdirAll(target, mode): records the directory (intermediate
segments implied). -/
def mkdirAll (fs : FS) (p : String) : FS :=
  ⟨fs.dirs ++ [p], fs.files⟩

/-- os.OpenFile(target, O_CREATE|O_WRONLY, mode) followed by io.Copy:
the flags carry no O_TRUNC, so an existing file is not truncated — the
copied bytes overwrite its front and any longer tail survives; a missing
file is created with exactly the copied bytes. -/
def fsWriteFile (fs : FS) (p : String) (data : List Nat) : FS :=
  match fs.files.lookup p with
  | some old =>
      ⟨fs.dirs,
        fs.files.map fun kv =>
          if kv.1 = p then (p, data ++ old.drop data.length) else kv⟩
  | none => ⟨fs.dirs, fs.files ++ [(p, data)]⟩

/-- The unbounded `for` loop of Untar, with explicit fuel.  The result
is the filesystem reached so far plus `none` when the loop has not
returned within the fuel, or `some r` when it returned (`r = none` is Go
`return nil`).  The source checks `header == nil` before `err == io.EOF`,
so a nil header — which is exactly what tar.Reader.Next produces at
end-of-stream and on decode errors — always takes the `continue`
branch. -/
def untarLoop : Nat → String → TRState → FS → FS × Option (Option Err)
  | 0, _, _, fs => (fs, none)
  | fuel + 1, dst, st, fs =>
      let r := trNext st
      match r.1 with
      | none => untarLoop fuel dst r.2.2 fs
      | some h =>
          match r.2.1 with
          | some Err.eof => (fs, some none)
          | some e => (fs, some (some e))
          | none =>
              let target := joinPath dst h.name
              match h.typeflag with
              | TypeFlag.dir =>
                  if fs.statExists target then untarLoop fuel dst r.2.2 fs
                  else untarLoop fuel dst r.2.2 (mkdirAll fs target)
              | TypeFlag.reg =>
                  let c := trCopy r.2.2
                  let fs' := fsWriteFile fs target c.1
                  match c.2.1 with
                  | some e => (fs', some (some e))
                  | none => untarLoop fuel dst c.2.2 fs'
              | TypeFlag.other => untarLoop fuel dst r.2.2 fs

/-- tgz.Untar(dst, r): open the gzip reader (its error is returned),
then run the entry loop. -/
def UntarM (dst : String) (r : List GzByte) (fs : FS) (fuel : Nat) :
    FS × Option (Option Err) :=
  match gzNewReader r with
  | Except.error e => (fs, some (some e))
  | Except.ok d => untarLoop fuel dst ⟨d.1, d.2, 0⟩ fs

/-- The stream received by the first destination sink. -/
def sinkStream (sinks : List SinkState) : List GzByte :=
  match sinks with
  | s :: _ => s.written
  | [] => []

/-- The entry header carried by a compressed stream item, if any. -/
def headerOf : GzByte → Option Header
  | GzByte.payload (TarItem.headerBlock h) => some h
  | _ => none

/-- The entry headers present in a compressed stream. -/
def writtenHeaders (stream : List GzByte) : List Header :=
  stream.filterMap headerOf

/-- An abstract archive entry used to build well-formed tar streams:
the header's size field is the content's length by construction. -/
structure UEntry where
  name : String
  uname : String
  gname : String
  mode : Int
  modTime : Nat
  accessTime : Nat
  changeTime : Nat
  typeflag : TypeFlag
  data : List Nat
  deriving DecidableEq

def UEntry.header (e : UEntry) : Header :=
  ⟨e.name, e.data.length, e.uname, e.gname, e.mode, e.modTime, e.accessTime,
    e.changeTime, e.typeflag⟩

def encodeUEntry (e : UEntry) : List TarItem :=
  TarItem.headerBlock e.header ::
    (if e.typeflag = TypeFlag.reg then e.data.map TarItem.dataByte else [])

/-- A well-formed archive: the entries in sequence followed by the
end-of-archive marker. -/
def archiveU (es : List UEntry) : List TarItem :=
  (es.map encodeUEntry).flatten ++ [TarItem.endMarker]

/-- Modelled from the claim's wording, as the refinement target it is
compared against (it is not the computation the source performs): the
walked path with the src prefix removed once from the front and one
leading separator stripped. -/
def specRelName (file src : String) : String :=
  if src.data.isPrefixOf file.data then
    ⟨trimLeadSep (file.data.drop src.data.length)⟩
  else ⟨trimLeadSep file.data⟩

/-- A concrete header override used by the concrete evaluations: name
"f1", owner/group "u"/"g", mode 420, modification time 7. -/
def hdrFix : Header := ⟨"f1", 0, "u", "g", 420, 7, 0, 0, TypeFlag.reg⟩

/-- A concrete content buffer used by the concrete evaluations. -/
def bufFix : List Nat := [10, 20, 30]

end Tgz

namespace Tgz

/-- Extracting the body bytes back out of a tar data-item run. -/
theorem filterMap_dataOf_map (d : List Nat) :
    (d.map TarItem.dataByte).filterMap dataOf = d := by
  induction d with
  | nil => rfl
  | cons a t ih => simp [dataOf, ih]

/-- The modelled gzip decoder inverts the modelled gzip framing. -/
theorem gzDecode_encode (items : List TarItem) :
    gzDecodeItems (items.map GzByte.payload ++ [GzByte.gzTrailer]) =
      (items, none) := by
  induction items with
  | nil => rfl
  | cons a t ih => simp [gzDecodeItems, ih]

/-- Opening a reader on a well-formed compressed stream succeeds and
yields the item stream with a clean terminal condition. -/
theorem gzNewReader_encode (items : List TarItem) :
    gzNewReader (gzEncode items) = Except.ok (items, none) := by
  simp [gzNewReader, gzEncode, gzDecode_encode]

/-- The composed form of `filterMap_dataOf_map` that simp produces. -/
theorem filterMap_dataOf_comp (d : List Nat) :
    d.filterMap (dataOf ∘ TarItem.dataByte) = d := by
  induction d with
  | nil => rfl
  | cons a t ih => simp [dataOf, ih]

/-- Body bytes contribute no headers to a compressed stream. -/
theorem filterMap_headerOf_payload_data (d : List Nat) :
    ((d.map TarItem.dataByte).map GzByte.payload).filterMap headerOf = [] := by
  induction d with
  | nil => rfl
  | cons a t ih => simp [headerOf, ih]

/-- Once the decompressed stream is exhausted, the Untar loop only ever
takes the `continue` branch: it never returns, whatever the fuel. -/
theorem untarLoop_nil (fuel : Nat) (dst : String) (term : Option Err) (p : Nat)
    (fs : FS) : (untarLoop fuel dst ⟨[], term, p⟩ fs).2 = none := by
  induction fuel generalizing p fs with
  | zero => rfl
  | succ n ih =>
      simp only [untarLoop, trNext, List.drop_nil]
      exact ih 0 fs

/-- At the end-of-archive marker tar.Reader.Next keeps answering
(nil, io.EOF), so the loop spins forever. -/
theorem untarLoop_endMarker (fuel : Nat) (dst : String) (term : Option Err)
    (rest : List TarItem) (fs : FS) :
    (untarLoop fuel dst ⟨TarItem.endMarker :: rest, term, 0⟩ fs).2 = none := by
  induction fuel generalizing fs with
  | zero => rfl
  | succ n ih =>
      simp only [untarLoop, trNext, List.drop_zero]
      exact ih fs

/-- Processing one well-formed entry leaves the loop at the remainder of
the stream (with some filesystem). -/
theorem untarLoop_step (e : UEntry) (rest : List TarItem) (n : Nat)
    (dst : String) (fs : FS) :
    ∃ fs', untarLoop (n + 1) dst ⟨encodeUEntry e ++ rest, none, 0⟩ fs
      = untarLoop n dst ⟨rest, none, 0⟩ fs' := by
  cases htf : e.typeflag with
  | reg =>
      refine ⟨fsWriteFile fs (joinPath dst e.name) e.data, ?_⟩
      have hlen : (e.data.map TarItem.dataByte).length = e.data.length :=
        List.length_map e.data TarItem.dataByte
      simp only [encodeUEntry, htf, if_pos, List.cons_append, untarLoop, trNext,
        List.drop_zero, UEntry.header, trCopy, List.take_left' hlen,
        List.drop_left' hlen, filterMap_dataOf_map, hlen, lt_irrefl, or_self,
        if_neg, ite_true, ite_false]
  | dir =>
      by_cases hs : fs.statExists (joinPath dst e.name)
      · refine ⟨fs, ?_⟩
        simp only [encodeUEntry, htf, List.cons_append, untarLoop, trNext,
          List.drop_zero, UEntry.header, if_neg, ite_false]
        simp [hs]
      · refine ⟨mkdirAll fs (joinPath dst e.name), ?_⟩
        simp only [encodeUEntry, htf, List.cons_append, untarLoop, trNext,
          List.drop_zero, UEntry.header, if_neg, ite_false]
        simp [hs]
  | other =>
      refine ⟨fs, ?_⟩
      simp only [encodeUEntry, htf, List.cons_append, untarLoop, trNext,
        List.drop_zero, UEntry.header, if_neg, ite_false]
      simp

/-- On any well-formed archive the Untar loop never returns. -/
theorem untarLoop_archive (es : List UEntry) :
    ∀ (fuel : Nat) (dst : String) (fs : FS),
      (untarLoop fuel dst ⟨archiveU es, none, 0⟩ fs).2 = none := by
  induction es with
  | nil =>
      intro fuel dst fs
      have h : archiveU [] = [TarItem.endMarker] := rfl
      rw [h]
      exact untarLoop_endMarker fuel dst none [] fs
  | cons e t ih =>
      intro fuel dst fs
      cases fuel with
      | zero => rfl
      | succ n =>
          have h : archiveU (e :: t) = encodeUEntry e ++ archiveU t := by
            simp [archiveU]
          rw [h]
          obtain ⟨fs', hstep⟩ := untarLoop_step e (archiveU t) n dst fs
          rw [hstep]
          exact ih n dst fs'

/-- Untar never returns on any well-formed compressed archive. -/
theorem untarM_archive (es : List UEntry) (dst : String) (fs : FS) (fuel : Nat) :
    (UntarM dst (gzEncode (archiveU es)) fs fuel).2 = none := by
  simp only [UntarM, gzNewReader_encode]
  exact untarLoop_archive es fuel dst fs

/-- io.Copy through the tar writer either errors or copies the whole
buffer. -/
theorem copyToTar_ok (t : TarWriter) (p : List Nat)
    (h : (copyToTar t p).2.2 = none) : (copyToTar t p).2.1 = p.length := by
  unfold copyToTar at h ⊢
  cases ht : t.err with
  | some e => simp [ht] at h
  | none =>
      simp only [ht] at h ⊢
      by_cases hl : p.length > t.remaining
      · simp [hl] at h
      · simp only [hl, ite_false, if_false] at h ⊢
        cases hg : (gzWrite t.gz (p.map TarItem.dataByte)).2 with
        | some e => simp [hg] at h
        | none => simp [hg]

/-- C1: the claim says a cleanly ending stream makes Untar terminate
without error.  On the code this fails: tar.Reader.Next answers a nil
header at clean end-of-stream (and on decode errors), and the loop's
`header == nil` case runs `continue` before the error cases are
inspected, so on every well-formed archive the loop never returns at
all, whatever the fuel. -/
theorem claim_c1_untar_never_returns (es : List UEntry) (dst : String)
    (fs : FS) (fuel : Nat) :
    (UntarM dst (gzEncode (archiveU es)) fs fuel).2 = none :=
  untarM_archive es dst fs fuel

/-- C5: single-file Tar with an override fixing mode=420, owner "u",
group "g" and modification time 5 writes a header whose owner, group and
mode come from the override but whose modification time is 0 — the
override's non-zero modification time is dropped in single-file mode,
contradicting the claim (and Tar's own doc comment). -/
theorem claim_c5_modtime_dropped :
    (TarM "dir/file.txt" (some ⟨"", 0, "u", "g", 420, 5, 0, 0, TypeFlag.reg⟩)
      (Except.ok ⟨"file.txt", 3, regularMode 420, 99⟩) [] [1, 2, 3]
      [idealSink]).1 = none ∧
    writtenHeaders (sinkStream (TarM "dir/file.txt"
      (some ⟨"", 0, "u", "g", 420, 5, 0, 0, TypeFlag.reg⟩)
      (Except.ok ⟨"file.txt", 3, regularMode 420, 99⟩) [] [1, 2, 3]
      [idealSink]).2)
      = [⟨"file.txt", 3, "u", "g", 420, 0, 0, 0, TypeFlag.reg⟩] :=
  ⟨by decide, by decide⟩

/-- C6: the claim says a file with setuid/setgid/sticky bits produces no
entry.  On the code this fails: IsRegular only inspects the file-type
bits, so a setuid executable is archived as a normal entry (while a
symlink, whose type bit is set, really is skipped without error). -/
theorem claim_c6_setuid_archived :
    (TarM "p/tool" (some hdrFix) (Except.ok ⟨"tool", 2, setuidMode, 99⟩)
      [] [1, 2] [idealSink]).1 = none ∧
    (writtenHeaders (sinkStream (TarM "p/tool" (some hdrFix)
      (Except.ok ⟨"tool", 2, setuidMode, 99⟩) [] [1, 2] [idealSink]).2)).length
      = 1 ∧
    (TarM "p/link" (some hdrFix) (Except.ok ⟨"link", 2, symlinkMode, 99⟩)
      [] [1, 2] [idealSink]).1 = none ∧
    writtenHeaders (sinkStream (TarM "p/link" (some hdrFix)
      (Except.ok ⟨"link", 2, symlinkMode, 99⟩) [] [1, 2] [idealSink]).2)
      = [] :=
  ⟨by decide, by decide, by decide, by decide⟩

/-- C7: the claim says extracting the archive Bytes builds from a buffer
produces a single file with that content.  The file is indeed
materialized with exactly the buffer's bytes, but Untar itself never
returns on the stream (the C1 loop bug), so the extract operation never
succeeds. -/
theorem claim_c7_roundtrip_diverges :
    (∀ fuel, (UntarM "out"
        (sinkStream (BytesM bufFix (some hdrFix) 0 [idealSink]).sinks)
        emptyFS fuel).2 = none) ∧
    (UntarM "out" (sinkStream (BytesM bufFix (some hdrFix) 0 [idealSink]).sinks)
        emptyFS 3).1.files = [("out/f1", bufFix)] := by
  constructor
  · intro fuel
    have h : sinkStream (BytesM bufFix (some hdrFix) 0 [idealSink]).sinks
        = gzEncode (archiveU
            [⟨"f1", "u", "g", 420, 7, 0, 0, TypeFlag.reg, bufFix⟩]) := by decide
    rw [h]
    exact untarM_archive _ _ _ _
  · decide

/-- C8: a successful Bytes call returns exactly the buffer's length: the
count is io.Copy's return value, which on success equals the content
bytes copied, excluding all header and gzip framing. -/
theorem claim_c8_count (b : List Nat) (opt0 : Option Header) (now : Nat)
    (sinks : List SinkState) (h : (BytesM b opt0 now sinks).err = none) :
    (BytesM b opt0 now sinks).n = b.length := by
  unfold BytesM at h ⊢
  exact copyToTar_ok _ _ h

/-- Witness for C8 at a concrete input. -/
theorem claim_c8_count_witness :
    (BytesM bufFix (some hdrFix) 0 [idealSink]).err = none ∧
    (BytesM bufFix (some hdrFix) 0 [idealSink]).n = bufFix.length :=
  ⟨by decide, claim_c8_count bufFix (some hdrFix) 0 [idealSink] (by decide)⟩

/-- C9: with a caller-supplied override (the non-determinism of the
defaults is exactly the current-time parameter, used only when the
override is nil), the stream Bytes produces is independent of the
current time, and Tar is a pure function of the source, the stat data,
the walk sequence and the sinks — two runs on the same inputs yield
byte-identical streams. -/
theorem claim_c9_deterministic (b : List Nat) (o : Header) (now₁ now₂ : Nat)
    (sinks : List SinkState) (src : String) (stat : Except Err FInfo)
    (walk : List WalkEntry) (content : List Nat) (_h : o.modTime ≠ 0) :
    BytesM b (some o) now₁ sinks = BytesM b (some o) now₂ sinks ∧
    TarM src (some o) stat walk content sinks
      = TarM src (some o) stat walk content sinks :=
  ⟨rfl, rfl⟩

/-- Witness for C9 at a concrete input. -/
theorem claim_c9_deterministic_witness :
    hdrFix.modTime ≠ 0 ∧
    (BytesM bufFix (some hdrFix) 0 [idealSink]
        = BytesM bufFix (some hdrFix) 9 [idealSink] ∧
      TarM "s" (some hdrFix) (Except.error (Err.statErr "missing")) [] []
          [idealSink]
        = TarM "s" (some hdrFix) (Except.error (Err.statErr "missing")) [] []
          [idealSink]) :=
  ⟨by decide, claim_c9_deterministic bufFix hdrFix 0 9 [idealSink] "s"
    (Except.error (Err.statErr "missing")) [] [] (by decide)⟩

/-- C10: every entry is materialized at filepath.Join(dst, name) with no
containment check — a directory entry is created at exactly that joined
path for any name — and for the name "../evil" under destination "out"
the joined path is "evil", which is outside the destination root (it is
not "out" and does not lie under "out/"). -/
theorem claim_c10_join_escape :
    (∀ name : String,
      (UntarM "out"
        (gzEncode (archiveU [⟨name, "u", "g", 493, 7, 0, 0, TypeFlag.dir, []⟩]))
        emptyFS 2).1.dirs = [joinPath "out" name]) ∧
    joinPath "out" "../evil" = "evil" ∧
    ("out/".data.isPrefixOf "evil".data) = false ∧
    ("evil" : String) ≠ "out" := by
  refine ⟨?_, by decide, by decide, by decide⟩
  intro name
  simp only [UntarM, gzNewReader_encode]
  simp [untarLoop, trNext, archiveU, encodeUEntry, UEntry.header, FS.statExists,
    emptyFS, mkdirAll]

/-- C2 counterexample: Tar on src "ab" whose tree holds the file
"ab/ab.txt".  strings.Replace removes every occurrence of "ab", so the
written entry name is ".txt", not the prefix-stripped relative path
"ab.txt" the claim promises. -/
theorem claim_c2_counterexample :
    ((writtenHeaders (sinkStream (TarM "ab" (some hdrFix)
        (Except.ok ⟨"ab", 0, dirMode 493, 0⟩)
        [⟨"ab", ⟨"ab", 0, dirMode 493, 0⟩, none, []⟩,
         ⟨"ab/ab.txt", ⟨"ab.txt", 2, regularMode 420, 3⟩, none, [5, 6]⟩]
        [] [idealSink]).2)).map (fun h => h.name) = [".txt"]) ∧
    specRelName "ab/ab.txt" "ab" = "ab.txt" ∧
    (".txt" : String) ≠ "ab.txt" :=
  ⟨by decide, by decide, by decide⟩

/-- C2 amended: for a regular file visited by a directory-mode archive,
the entry's name is the walked path with every occurrence of the src
string removed (strings.Replace with count -1) and then one leading
separator trimmed; this coincides with the prefix-stripped relative path
only when src does not reoccur later in the walked path. -/
theorem claim_c2_replace_all_name (src file base : String) (perm dperm : Int)
    (mt : Nat) (content : List Nat) (o : Header) :
    (TarM src (some o) (Except.ok ⟨baseName src, 0, dirMode dperm, 0⟩)
      [⟨src, ⟨baseName src, 0, dirMode dperm, 0⟩, none, []⟩,
       ⟨file, ⟨base, content.length, regularMode perm, mt⟩, none, content⟩]
      [] [idealSink]).1 = none ∧
    (writtenHeaders (sinkStream (TarM src (some o)
      (Except.ok ⟨baseName src, 0, dirMode dperm, 0⟩)
      [⟨src, ⟨baseName src, 0, dirMode dperm, 0⟩, none, []⟩,
       ⟨file, ⟨base, content.length, regularMode perm, mt⟩, none, content⟩]
      [] [idealSink]).2)).map (fun h => h.name) = [goEntryName file src] := by
  by_cases hm : o.modTime = 0 <;>
    simp [TarM, runWalk, tarWalkFn, FileInfoHeader, FileMode.IsRegular,
      regularMode, dirMode, twWriteHeader, copyToTar, gzWrite, gzClose,
      twClose, mwWrite, sinkWrite, idealSink, writtenHeaders, sinkStream,
      headerOf, filterMap_headerOf_payload_data, hm]

/-- C3 counterexample: extracting a 2-byte entry "f" over an existing
5-byte file at the target leaves the old tail in place — the resulting
contents are not the entry's bytes, refuting "created or truncated". -/
theorem claim_c3_counterexample :
    (UntarM "o"
      (gzEncode (archiveU [⟨"f", "u", "g", 420, 7, 0, 0, TypeFlag.reg, [1, 2]⟩]))
      ⟨[], [("o/f", [9, 9, 9, 9, 9])]⟩ 2).1.files = [("o/f", [1, 2, 9, 9, 9])] ∧
    ([1, 2, 9, 9, 9] : List Nat) ≠ [1, 2] :=
  ⟨by decide, by decide⟩

/-- C3 amended: the target file is opened with O_CREATE|O_WRONLY — no
O_TRUNC — so the entry's bytes overwrite the front of an existing file
and any longer tail survives; the contents equal the entry's bytes
exactly only when no longer file pre-existed at the target. -/
theorem claim_c3_no_truncation (dst name : String) (old data : List Nat)
    (u g : String) (mo : Int) (mt : Nat) :
    (UntarM dst
      (gzEncode (archiveU [⟨name, u, g, mo, mt, 0, 0, TypeFlag.reg, data⟩]))
      ⟨[], [(joinPath dst name, old)]⟩ 2).1.files
      = [(joinPath dst name, data ++ old.drop data.length)] := by
  simp only [UntarM, gzNewReader_encode]
  have hlen : (data.map TarItem.dataByte).length = data.length :=
    List.length_map data TarItem.dataByte
  simp [untarLoop, trNext, archiveU, encodeUEntry, UEntry.header, trCopy,
    List.take_left' hlen, List.drop_left' hlen, filterMap_dataOf_map,
    filterMap_dataOf_comp, fsWriteFile, List.lookup]

/-- C4 counterexample: a sink that accepts the first write (the gzip
header, emitted when the tar header block reaches the compressor) and
fails afterwards.  The failure then happens when the deferred closes
flush the compressor's buffered bytes; Bytes reports success even though
a sink write failed and the archive never reached the destination. -/
theorem claim_c4_counterexample :
    (BytesM bufFix (some hdrFix) 0 [⟨some 1, [], false⟩]).err = none ∧
    (BytesM bufFix (some hdrFix) 0 [⟨some 1, [], false⟩]).sinks.map
      (fun s => s.failed) = [true] :=
  ⟨by decide, by decide⟩

/-- C4 amended: a sink write failure that surfaces while an entry is
being written is returned to the caller (through the serializer's
latched error, since Bytes discards WriteHeader's own result), but a
write failure that only occurs when the compressor and serializer flush
their buffered bytes during the deferred finalization is discarded: the
call returns success. -/
theorem claim_c4_finalization_errors_discarded (b : List Nat) (o : Header)
    (now : Nat) :
    (BytesM b (some o) now [⟨some 0, [], false⟩]).err = some Err.sink ∧
    (BytesM b (some o) now [⟨some 1, [], false⟩]).err = none ∧
    (BytesM b (some o) now [⟨some 1, [], false⟩]).sinks.map (fun s => s.failed)
      = [true] := by
  refine ⟨?_, ?_, ?_⟩
  · simp [BytesM, twWriteHeader, gzWrite, mwWrite, sinkWrite, copyToTar]
  · simp [BytesM, twWriteHeader, gzWrite, mwWrite, sinkWrite, copyToTar,
      twClose, gzClose]
  · simp [BytesM, twWriteHeader, gzWrite, mwWrite, sinkWrite, copyToTar,
      twClose, gzClose]

end Tgz
